import Mathlib

/-!
Shallow embedding of the profile/credential retrieval engine of the
Wifi-Scanner repository:

* `infrastructure/netsh_wifi_provider.py` — `NETSH_KEYS`, `list_profiles`,
  `_parse_netsh_output`, `get_password`;
* `core/scanner_service.py` — `WiFiScannerService.scan`;
* `core/models.py` — `NetworkCredential`.

Python strings are modelled by `String`, Python `dict` by an association
list kept in insertion order with overwrite-in-place semantics, exceptions
by explicit sum types, and the thread pool's unspecified completion order
by an explicit `order` argument that is a permutation of the listed
profiles.  Regular-expression matching is modelled by the equivalent
character-list scan for the three concrete patterns the source uses;
only ASCII case folding is modelled (all patterns folded are ASCII).
-/

/-- The six ASCII whitespace characters matched by Python regex `\s` and
stripped by `str.strip` (unicode whitespace is out of scope here). -/
def isPySpace (c : Char) : Bool :=
  c = ' ' || c = '\t' || c = '\n' || c = '\r' || c = '\x0b' || c = '\x0c'

/-- Python `str.strip` on a character list: drop trailing whitespace, then
leading whitespace. -/
def stripChars (cs : List Char) : List Char :=
  ((cs.reverse.dropWhile isPySpace).reverse).dropWhile isPySpace

/-- Python `str.strip` on a string. -/
def pyStrip (s : String) : String :=
  String.mk (stripChars s.data)

/-- Python `str.lower` restricted to ASCII (the folded patterns are ASCII). -/
def pyLower (s : String) : String :=
  String.mk (s.data.map Char.toLower)

/-- Contiguous-substring scan on character lists. -/
def isInfixChars (needle : List Char) : List Char → Bool
  | [] => needle.isEmpty
  | c :: rest => needle.isPrefixOf (c :: rest) || isInfixChars needle rest

/-- Python substring test `needle in hay`. -/
def containsSub (needle hay : String) : Bool :=
  isInfixChars needle.data hay.data

/-- `str.splitlines`, worker: accumulates the current line (reversed) and
splits at `\r\n`, `\n` or `\r`; a trailing line break produces no trailing
empty line (exotic unicode line boundaries are not modelled). -/
def splitlinesGo : List Char → List Char → List String
  | [], acc => [String.mk acc.reverse]
  | '\r' :: '\n' :: rest, acc =>
      String.mk acc.reverse :: (if rest.isEmpty then [] else splitlinesGo rest [])
  | '\n' :: rest, acc =>
      String.mk acc.reverse :: (if rest.isEmpty then [] else splitlinesGo rest [])
  | '\r' :: rest, acc =>
      String.mk acc.reverse :: (if rest.isEmpty then [] else splitlinesGo rest [])
  | c :: rest, acc => splitlinesGo rest (c :: acc)

/-- Python `str.splitlines`. -/
def splitlines (s : String) : List String :=
  if s.data.isEmpty then [] else splitlinesGo s.data []

/-!  ## `_parse_netsh_output` (netsh_wifi_provider.py lines 57-66)

`re.match(r"\s*(.*?)\s*:\s*(.*)", line)` matches exactly when the line
contains a colon; the lazy group 1 is the text before the first colon and
group 2 the text after it, both subsequently `.strip()`ed by the caller
(the regex's own `\s*` trimming is subsumed by the strip). -/

/-- Split a line at its first colon: `some (before, after)` when a colon
is present, `none` otherwise. -/
def splitFirstColon : List Char → Option (List Char × List Char)
  | [] => none
  | ':' :: rest => some ([], rest)
  | c :: rest => (splitFirstColon rest).map (fun p => (c :: p.1, p.2))

/-- One line of `_parse_netsh_output`: the `(key, value)` pair for a line
matching `\s*(.*?)\s*:\s*(.*)`, both parts stripped; `none` for a
non-matching (colon-free) line. -/
def parseKVLine (line : String) : Option (String × String) :=
  (splitFirstColon line.data).map
    (fun p => (String.mk (stripChars p.1), String.mk (stripChars p.2)))

/-- Python `dict` assignment `m[k] = v`: overwrite in place if the key
exists, else append. -/
def dictInsert (m : List (String × String)) (kv : String × String) :
    List (String × String) :=
  if m.any (fun p => p.1 = kv.1) then
    m.map (fun p => if p.1 = kv.1 then kv else p)
  else m ++ [kv]

/-- Python `k in m` on the dict model. -/
def dictContains (m : List (String × String)) (k : String) : Bool :=
  m.any (fun p => p.1 = k)

/-- Python `m[k]` (as an option) on the dict model; keys are unique so the
first hit is the binding. -/
def dictFind (m : List (String × String)) (k : String) : Option String :=
  (m.find? (fun p => p.1 = k)).map (fun p => p.2)

/-- `NetshWiFiProvider._parse_netsh_output`: fold every matching line into
the dict with Python assignment semantics. -/
def parse_netsh_output (output : String) : List (String × String) :=
  (splitlines output).foldl
    (fun m line =>
      match parseKVLine line with
      | some kv => dictInsert m kv
      | none => m)
    []

example : parse_netsh_output "  Key Content  : secret123\nCipher : CCMP" =
    [("Key Content", "secret123"), ("Cipher", "CCMP")] := by decide

example : parse_netsh_output "A : 1\nB:2\nA :  3 " = [("A", "3"), ("B", "2")] := by
  decide

/-!  ## `list_profiles` (netsh_wifi_provider.py lines 37-55)

The per-line pattern is
`.*(?:All User Profile|Todos los perfiles de usuario|Perfil de todos los usuarios)\s*:\s*(.*)`
with `re.IGNORECASE` and `.search`: the greedy leading `.*` selects the
last position at which a label variant is followed by `\s*:`; group 1 is
the rest of the line after that colon, `.strip()`ed by the caller, and
only non-empty names are appended. -/

/-- The three label alternatives of the profile regex. -/
def profileLabels : List String :=
  ["All User Profile", "Todos los perfiles de usuario",
   "Perfil de todos los usuarios"]

/-- Try to match `label\s*:` at the head of `cs` (case-insensitively) for
some label variant; on success return the characters after the colon
(group 1 up to stripping). -/
def labelMatchAt (cs : List Char) : Option (List Char) :=
  profileLabels.findSome? (fun lab =>
    let labChars := lab.data.map Char.toLower
    if labChars.isPrefixOf (cs.map Char.toLower) then
      match (cs.drop labChars.length).dropWhile isPySpace with
      | ':' :: rest => some rest
      | _ => none
    else none)

/-- The capture of the profile regex on a line: the greedy `.*` makes the
last matching label position win. -/
def lastLabelCapture : List Char → Option (List Char)
  | [] => none
  | c :: rest =>
      match lastLabelCapture rest with
      | some r => some r
      | none => labelMatchAt (c :: rest)

/-- One line of `list_profiles`: `some name` when the profile regex
matches and the stripped capture is non-empty. -/
def profileLineName (line : String) : Option String :=
  match lastLabelCapture line.data with
  | some rest =>
      let name := String.mk (stripChars rest)
      if name.data.isEmpty then none else some name
  | none => none

/-- `NetshWiFiProvider.list_profiles` applied to the raw command output:
the appending loop over the lines. -/
def list_profiles (output : String) : List String :=
  (splitlines output).foldl
    (fun acc line =>
      match profileLineName line with
      | some n => acc ++ [n]
      | none => acc)
    []

example :
    list_profiles
      "Profiles on interface Wi-Fi:\n\n    All User Profile     : MyNetwork1\n    All User Profile     : MyNetwork2" =
    ["MyNetwork1", "MyNetwork2"] := by decide

/-!  ## `NETSH_KEYS` and the classifier (netsh_wifi_provider.py 13-20, 85-107) -/

def NETSH_KEYS_profile_not_found : List String := ["is not found", "no se encuentra"]

def NETSH_KEYS_key_content : List String := ["Key Content", "Contenido de la clave"]

def NETSH_KEYS_security_key : List String := ["Security key", "Clave de seguridad"]

def NETSH_KEYS_security_key_absent : List String := ["Absent", "Ausente"]

def NETSH_KEYS_authentication : List String := ["Authentication", "Autenticación"]

def NETSH_KEYS_auth_open : List String := ["Open", "Abierta"]

/-- Classification result for one profile whose query command succeeded
(`get_password` lines 85-107: return the key, raise
`OpenNetworkException`, or raise `AdminRightsRequiredError`). -/
inductive Outcome where
  | recovered (pw : String)
  | openNetwork
  | adminRightsRequired
deriving DecidableEq, Repr

/-- The open-network test of lines 92-94: some `security_key` label is
present and its value contains some `security_key_absent` variant. -/
def securityAbsentSignal (details : List (String × String)) : Bool :=
  NETSH_KEYS_security_key.any (fun k =>
    match dictFind details k with
    | some v => NETSH_KEYS_security_key_absent.any (fun a => containsSub a v)
    | none => false)

/-- The fallback open-network test of lines 97-101: the first present
`authentication` label has a value containing some `auth_open` variant. -/
def openAuthSignal (details : List (String × String)) : Bool :=
  match NETSH_KEYS_authentication.find? (fun k => dictContains details k) with
  | some authKey =>
      match dictFind details authKey with
      | some v => NETSH_KEYS_auth_open.any (fun a => containsSub a v)
      | none => false
  | none => false

/-- The classification decision of `get_password` after parsing (lines
85-107): first present `key_content` label wins, then the two
open-network signals, else admin rights required. -/
def classify (details : List (String × String)) : Outcome :=
  match NETSH_KEYS_key_content.findSome? (fun k => dictFind details k) with
  | some v => .recovered v
  | none =>
      if securityAbsentSignal details then .openNetwork
      else if openAuthSignal details then .openNetwork
      else .adminRightsRequired

example : classify (parse_netsh_output "  Key Content  : secret123") =
    .recovered "secret123" := by decide

example : classify (parse_netsh_output "  Authentication : Open\n Cipher : None") =
    .openNetwork := by decide

example : classify (parse_netsh_output "  Security key : Absent") =
    .openNetwork := by decide

example : classify (parse_netsh_output "  Authentication : WPA2-Personal") =
    .adminRightsRequired := by decide

/-!  ## Data model and service layer (core/models.py, core/scanner_service.py) -/

/-- `core/models.py` `NetworkCredential`. -/
structure NetworkCredential where
  name : String
  password : Option String
  interface : String
deriving DecidableEq, Repr

/-- `NetshWiFiProvider.get_interface_name` (lines 31-35). -/
def get_interface_name : String := "Wi-Fi"

/-- What one `get_password` future does from the scanner's point of view
(scanner_service.py lines 45-81): return normally, or raise one of the
three caught exception classes. -/
inductive LookupOutcome where
  | result (pw : Option String)
  | openNetworkExc
  | passwordNotFoundExc (msg : String)
  | unexpectedExc
deriving DecidableEq, Repr

/-- The localized strings the service layer consults
(`LocalizationManager.get_string`); the tables themselves are external
JSON data, so they are parameters of the model. -/
structure LocStrings where
  status_open_network : String
  status_general_error : String
  error_password_not_found_admin_required : String → String

/-- The credential the scanner appends for one completed future
(scanner_service.py lines 47-81): every branch constructs a row with
`interface="WiFi"`. -/
def credentialOf (loc : LocStrings) (name : String) (o : LookupOutcome) :
    NetworkCredential :=
  match o with
  | .result pw => ⟨name, pw, "WiFi"⟩
  | .openNetworkExc => ⟨name, some loc.status_open_network, "WiFi"⟩
  | .passwordNotFoundExc msg => ⟨name, some msg, "WiFi"⟩
  | .unexpectedExc => ⟨name, some loc.status_general_error, "WiFi"⟩

/-- The sort key comparison of `credentials.sort(key=lambda x: x.name)`:
Python string `<=`, i.e. code-point lexicographic order. -/
def credLE (a b : NetworkCredential) : Prop := a.name ≤ b.name

instance : DecidableRel credLE := fun a b =>
  inferInstanceAs (Decidable (a.name ≤ b.name))

instance : IsTotal NetworkCredential credLE :=
  ⟨fun a b => le_total a.name b.name⟩

instance : IsTrans NetworkCredential credLE :=
  ⟨fun _ _ _ h h2 => le_trans h h2⟩

/-- `credentials.sort(key=lambda x: x.name)`: Python's sort is stable, and
every stable sort by a total preorder yields the same list, so a stable
insertion sort models it exactly. -/
def sortCreds (l : List NetworkCredential) : List NetworkCredential :=
  List.insertionSort credLE l

/-- `WiFiScannerService.scan` (lines 30-87).  `listing` is the outcome of
`provider.list_profiles()` (an `Except` holding the exception text when
the listing raises), `lookup` the outcome of each profile's
`get_password` future, and `order` the completion order in which
`as_completed` yields the futures — a permutation of the listed profiles.
A listing failure is wrapped into `ScannerServiceException`; otherwise
every completed future appends one credential and the list is sorted. -/
def scanService (loc : LocStrings) (listing : Except String (List String))
    (lookup : String → LookupOutcome) (order : List String) :
    Except String (List NetworkCredential) :=
  match listing with
  | .error e => .error ("Error al escanear redes: " ++ e)
  | .ok profiles =>
      if profiles.isEmpty then .ok []
      else .ok (sortCreds (order.map (fun p => credentialOf loc p (lookup p))))

/-!  ## `get_password` (netsh_wifi_provider.py lines 68-107) -/

/-- Result of the per-profile `netsh wlan show profile <name> key=clear`
invocation: either exit code 0 with the captured stdout, or a
`subprocess.CalledProcessError` with a non-zero exit code carrying the
captured stdout. -/
inductive CmdResult where
  | ok (stdout : String)
  | err (exitCode : Nat) (stdout : String)
deriving DecidableEq, Repr

/-- The `profile_not_found` marker test of line 77:
`any(msg in e.stdout.lower() for msg in NETSH_KEYS["profile_not_found"])`. -/
def profileNotFoundIn (stdoutText : String) : Bool :=
  NETSH_KEYS_profile_not_found.any (fun m => containsSub m (pyLower stdoutText))

/-- `NetshWiFiProvider.get_password` as the scanner observes it: on a
failed command both the not-found branch (logged info) and the other
branch (logged warning) `return None`; on success the parsed output is
classified and either returned or raised. -/
def get_password (loc : LocStrings) (cmd : CmdResult) (profile : String) :
    LookupOutcome :=
  match cmd with
  | .err _ stdoutText =>
      if profileNotFoundIn stdoutText then .result none else .result none
  | .ok output =>
      match classify (parse_netsh_output output) with
      | .recovered pw => .result (some pw)
      | .openNetwork => .openNetworkExc
      | .adminRightsRequired =>
          .passwordNotFoundExc
            (loc.error_password_not_found_admin_required profile)

/-- A concrete translation table for witnesses and counterexamples. -/
def locDemo : LocStrings :=
  ⟨"Open network (no password)", "Unexpected error",
   fun p => "Password for " ++ p ++ " not found. Admin rights required."⟩

example :
    get_password locDemo (.ok "  Key Content : secret123") "Net" =
      .result (some "secret123") := by decide

example :
    get_password locDemo (.err 1 "The profile Net is not found on the system.") "Net" =
      .result none := by decide

/-!  ## Spec-side characterizations used to state the claims -/

/-- The value of the last pair with key `k` in a sequence of parsed
`(key, value)` pairs — the "last occurrence of a duplicate label wins"
reading of the spec. -/
def lastVal : List (String × String) → String → Option String
  | [], _ => none
  | kv :: kvs, k =>
      match lastVal kvs k with
      | some v => some v
      | none => if kv.1 = k then some kv.2 else none

/-- A language-independent shape of parsed fields: the values attached to
the key-content, security-key and authentication concepts (absent when
the label does not occur). -/
structure FieldShape where
  keyVal : Option String
  secVal : Option String
  authVal : Option String

/-- Build the parsed dict for a shape using one label per concept. -/
def mkFieldsAt (keyLab secLab authLab : String) (s : FieldShape) :
    List (String × String) :=
  (match s.keyVal with | some v => [(keyLab, v)] | none => []) ++
  (match s.secVal with | some v => [(secLab, v)] | none => []) ++
  (match s.authVal with | some v => [(authLab, v)] | none => [])

/-- A security-key field value, abstracted over the display language: the
locale's absent-value variant, or any other (locale-independent) text. -/
inductive SecKeyValue where
  | absentVariant
  | otherValue (s : String)

/-- An authentication field value, abstracted over the display language:
the locale's open-value variant, or any other text. -/
inductive AuthTypeValue where
  | openVariant
  | otherValue (s : String)

/-- A language-independent shape of a parsed field mapping in which the
locale-dependent value variants are kept abstract; the key-content value
(a recovered password) is locale-independent. -/
structure LocalizedFieldShape where
  keyVal : Option String
  secVal : Option SecKeyValue
  authVal : Option AuthTypeValue

def renderSecEn : SecKeyValue → String
  | .absentVariant => "Absent"
  | .otherValue s => s

def renderSecEs : SecKeyValue → String
  | .absentVariant => "Ausente"
  | .otherValue s => s

def renderAuthEn : AuthTypeValue → String
  | .openVariant => "Open"
  | .otherValue s => s

def renderAuthEs : AuthTypeValue → String
  | .openVariant => "Abierta"
  | .otherValue s => s

/-- The shape realized with the English labels and English value
variants of `NETSH_KEYS`. -/
def mkLocalizedEn (s : LocalizedFieldShape) : List (String × String) :=
  mkFieldsAt "Key Content" "Security key" "Authentication"
    ⟨s.keyVal, s.secVal.map renderSecEn, s.authVal.map renderAuthEn⟩

/-- The shape realized with the Spanish labels and Spanish value
variants of `NETSH_KEYS`. -/
def mkLocalizedEs (s : LocalizedFieldShape) : List (String × String) :=
  mkFieldsAt "Contenido de la clave" "Clave de seguridad" "Autenticación"
    ⟨s.keyVal, s.secVal.map renderSecEs, s.authVal.map renderAuthEs⟩

/-!  ## Dictionary lemmas -/

theorem dictFind_cons (p : String × String) (m : List (String × String)) (k : String) :
    dictFind (p :: m) k = if p.1 = k then some p.2 else dictFind m k := by
  by_cases h : p.1 = k <;> simp [dictFind, List.find?_cons, h]

theorem dictFind_map_overwrite_ne (m : List (String × String)) (kv : String × String)
    (k : String) (h : kv.1 ≠ k) :
    dictFind (m.map (fun p => if p.1 = kv.1 then kv else p)) k = dictFind m k := by
  induction m with
  | nil => rfl
  | cons a m ih =>
    by_cases ha : a.1 = kv.1
    · rw [List.map_cons, if_pos ha, dictFind_cons, dictFind_cons, if_neg h,
        if_neg (fun hk => h (ha.symm.trans hk)), ih]
    · rw [List.map_cons, if_neg ha, dictFind_cons, dictFind_cons, ih]

theorem dictFind_map_overwrite_eq (m : List (String × String)) (kv : String × String) :
    dictFind (m.map (fun p => if p.1 = kv.1 then kv else p)) kv.1 =
      if m.any (fun p => p.1 = kv.1) then some kv.2 else none := by
  induction m with
  | nil => rfl
  | cons a m ih =>
    by_cases ha : a.1 = kv.1
    · simp [List.map_cons, if_pos ha, dictFind_cons, List.any_cons, ha]
    · rw [List.map_cons, if_neg ha, dictFind_cons, if_neg ha, ih, List.any_cons,
        decide_eq_false ha, Bool.false_or]

theorem dictFind_append_single (m : List (String × String)) (kv : String × String)
    (k : String) :
    dictFind (m ++ [kv]) k =
      (dictFind m k).or (if kv.1 = k then some kv.2 else none) := by
  induction m with
  | nil => by_cases h : kv.1 = k <;> simp [dictFind_cons, dictFind, h]
  | cons a m ih =>
    rw [List.cons_append, dictFind_cons, dictFind_cons]
    by_cases ha : a.1 = k
    · rw [if_pos ha, if_pos ha]; rfl
    · rw [if_neg ha, if_neg ha, ih]

theorem dictFind_dictInsert (m : List (String × String)) (kv : String × String)
    (k : String) :
    dictFind (dictInsert m kv) k = if kv.1 = k then some kv.2 else dictFind m k := by
  unfold dictInsert
  by_cases hAny : m.any (fun p => p.1 = kv.1)
  · rw [if_pos hAny]
    by_cases hk : kv.1 = k
    · subst hk; rw [dictFind_map_overwrite_eq, if_pos hAny, if_pos rfl]
    · rw [dictFind_map_overwrite_ne m kv k hk, if_neg hk]
  · rw [if_neg hAny, dictFind_append_single]
    have hnone : dictFind m kv.1 = none := by
      cases hf : m.find? (fun p => p.1 = kv.1) with
      | none => simp [dictFind, hf]
      | some p =>
          exact absurd
            (List.any_eq_true.mpr ⟨p, List.mem_of_find?_eq_some hf, List.find?_some hf⟩)
            hAny
    by_cases hk : kv.1 = k
    · subst hk; simp [hnone]
    · cases hm : dictFind m k <;> simp [hk, hm]

theorem parse_foldl_lastVal (lines : List String) (m : List (String × String))
    (k : String) :
    dictFind
      (lines.foldl
        (fun m line =>
          match parseKVLine line with
          | some kv => dictInsert m kv
          | none => m) m) k =
      (lastVal (lines.filterMap parseKVLine) k).or (dictFind m k) := by
  induction lines generalizing m with
  | nil => simp [lastVal]
  | cons line lines ih =>
    cases hp : parseKVLine line with
    | none => simp [List.foldl_cons, hp, List.filterMap_cons, ih]
    | some kv =>
        simp only [List.foldl_cons, hp, List.filterMap_cons]
        rw [ih, dictFind_dictInsert]
        cases hl : lastVal (lines.filterMap parseKVLine) k with
        | some v => simp [lastVal, hl]
        | none =>
            by_cases hk : kv.1 = k <;> simp [lastVal, hl, hk]

theorem head?_dropWhile_false (p : Char → Bool) (l : List Char) :
    ∀ c ∈ (l.dropWhile p).head?, p c = false := by
  induction l with
  | nil => intro c hc; simp at hc
  | cons a l ih =>
      intro c hc
      by_cases h : p a
      · rw [List.dropWhile_cons, if_pos h] at hc
        exact ih c hc
      · rw [List.dropWhile_cons, if_neg h] at hc
        have hca : a = c := by simpa using hc
        subst hca
        simpa using h

theorem getLast?_dropWhile_false (p : Char → Bool) (l : List Char)
    (hl : ∀ c ∈ l.getLast?, p c = false) :
    ∀ c ∈ (l.dropWhile p).getLast?, p c = false := by
  intro c hc
  obtain ⟨t, ht⟩ := List.dropWhile_suffix p (l := l)
  apply hl
  rw [← ht, List.getLast?_append]
  rw [Option.mem_def] at hc ⊢
  rw [hc]
  rfl

theorem stripChars_head (cs : List Char) :
    ∀ c ∈ (stripChars cs).head?, isPySpace c = false :=
  head?_dropWhile_false isPySpace _

theorem stripChars_getLast (cs : List Char) :
    ∀ c ∈ (stripChars cs).getLast?, isPySpace c = false := by
  apply getLast?_dropWhile_false
  intro c hc
  rw [List.getLast?_reverse] at hc
  exact head?_dropWhile_false isPySpace _ c hc

/-- C6: for every input text, `_parse_netsh_output` holds one binding per
line matching `<label><colon><value>`; the retained value of a label is
the one from the last matching line carrying that label (overwrite
semantics), and both label and value carry no surrounding whitespace.
The last conjunct exhibits the overwrite on a duplicated label. -/
theorem parse_netsh_output_last_occurrence_wins :
    (∀ output k,
        dictFind (parse_netsh_output output) k =
          lastVal ((splitlines output).filterMap parseKVLine) k) ∧
    (∀ line kk v, parseKVLine line = some (kk, v) →
        (∀ c ∈ kk.data.head?, isPySpace c = false) ∧
        (∀ c ∈ kk.data.getLast?, isPySpace c = false) ∧
        (∀ c ∈ v.data.head?, isPySpace c = false) ∧
        (∀ c ∈ v.data.getLast?, isPySpace c = false)) ∧
    parse_netsh_output " Security key  :  Absent \n Security key : Present " =
      [("Security key", "Present")] := by
  refine ⟨fun output k => ?_, fun line kk v h => ?_, by decide⟩
  · have := parse_foldl_lastVal (splitlines output) [] k
    simpa [parse_netsh_output, dictFind] using this
  · rcases hs : splitFirstColon line.data with _ | ⟨a, b⟩
    · rw [parseKVLine, hs] at h; cases h
    · rw [parseKVLine, hs] at h
      injection h with h1
      injection h1 with hk hv
      subst hk; subst hv
      exact ⟨stripChars_head a, stripChars_getLast a,
        stripChars_head b, stripChars_getLast b⟩

theorem foldl_append_eq_filterMap (f : String → Option String)
    (lines : List String) (acc : List String) :
    lines.foldl
      (fun acc line =>
        match f line with
        | some n => acc ++ [n]
        | none => acc) acc =
      acc ++ lines.filterMap f := by
  induction lines generalizing acc with
  | nil => simp
  | cons line lines ih =>
      cases hf : f line <;>
        simp [List.foldl_cons, hf, List.filterMap_cons, ih]

/-- C7: `list_profiles` returns exactly the names captured from lines the
profile regex matches (with a non-empty stripped capture), in the order
those lines appear, ignoring all other lines; a listing with three
matching lines yields those three names in source order. -/
theorem list_profiles_source_order :
    (∀ output,
        list_profiles output = (splitlines output).filterMap profileLineName) ∧
    list_profiles
        "  Perfil de todos los usuarios  : MiRed1\n  Perfil de todos los usuarios  : MiRed Espacio\n  Perfil de todos los usuarios  : MiRed3" =
      ["MiRed1", "MiRed Espacio", "MiRed3"] := by
  refine ⟨fun output => ?_, by decide⟩
  have := foldl_append_eq_filterMap profileLineName (splitlines output) []
  simpa [list_profiles] using this

/-- C3: classification is first-match-wins in the specified order: a
present key-content label yields `recovered` with that label's value —
even when the security-absent or open-authentication signals also hold;
otherwise a security-absent or open-authentication signal yields
`openNetwork`; otherwise the result is `adminRightsRequired`. -/
theorem classify_first_match_wins (details : List (String × String)) :
    (∀ v, NETSH_KEYS_key_content.findSome? (fun k => dictFind details k) = some v →
        classify details = .recovered v) ∧
    (NETSH_KEYS_key_content.findSome? (fun k => dictFind details k) = none →
        (securityAbsentSignal details = true ∨ openAuthSignal details = true) →
        classify details = .openNetwork) ∧
    (NETSH_KEYS_key_content.findSome? (fun k => dictFind details k) = none →
        securityAbsentSignal details = false → openAuthSignal details = false →
        classify details = .adminRightsRequired) := by
  refine ⟨fun v hv => ?_, fun hn hsig => ?_, fun hn h1 h2 => ?_⟩
  · unfold classify
    rw [hv]
  · unfold classify
    rw [hn]
    rcases hsig with h | h
    · simp [h]
    · by_cases hs : securityAbsentSignal details
      · simp [hs]
      · simp [hs, h]
  · unfold classify
    rw [hn]
    simp [h1, h2]

/-- Witness for C3: a parsed block holding a key-content label, a
security-absent value and an open authentication value classifies as
`recovered` — the key wins over both open-network signals. -/
theorem classify_first_match_wins_witness :
    securityAbsentSignal
        [("Key Content", "s3cret"), ("Security key", "Absent"),
         ("Authentication", "Open")] = true ∧
    classify
        [("Key Content", "s3cret"), ("Security key", "Absent"),
         ("Authentication", "Open")] = .recovered "s3cret" :=
  ⟨by decide,
   (classify_first_match_wins
      [("Key Content", "s3cret"), ("Security key", "Absent"),
       ("Authentication", "Open")]).1 "s3cret" (by decide)⟩

/-- C10: value variants are matched by substring containment, not exact
equality: with no key-content label present, a security-key value that
merely contains an absent-value variant, or an authentication value that
merely contains an open-value variant, classifies as `openNetwork` even
when the full value differs from the variant. -/
theorem classify_substring_containment (details : List (String × String))
    (hkey : NETSH_KEYS_key_content.findSome? (fun k => dictFind details k) = none) :
    (∀ k v a, k ∈ NETSH_KEYS_security_key → dictFind details k = some v →
        a ∈ NETSH_KEYS_security_key_absent → containsSub a v = true → v ≠ a →
        classify details = .openNetwork) ∧
    (∀ k v a,
        NETSH_KEYS_authentication.find? (fun kk => dictContains details kk) = some k →
        dictFind details k = some v → a ∈ NETSH_KEYS_auth_open →
        containsSub a v = true → v ≠ a →
        classify details = .openNetwork) := by
  constructor
  · intro k v a hk hfind ha hsub _
    have hsig : securityAbsentSignal details = true := by
      apply List.any_eq_true.mpr
      refine ⟨k, hk, ?_⟩
      rw [hfind]
      exact List.any_eq_true.mpr ⟨a, ha, hsub⟩
    unfold classify
    rw [hkey]
    simp [hsig]
  · intro k v a hfindkey hfind ha hsub _
    have hsig : openAuthSignal details = true := by
      unfold openAuthSignal
      rw [hfindkey]
      simp only [hfind]
      exact List.any_eq_true.mpr ⟨a, ha, hsub⟩
    unfold classify
    rw [hkey]
    by_cases hs : securityAbsentSignal details
    · simp [hs]
    · simp [hs, hsig]

/-- Witness for C10: `"Absent (free hotspot)"` strictly contains
`"Absent"` and `"Abierta (portal)"` strictly contains `"Abierta"`; both
classify as `openNetwork`. -/
theorem classify_substring_containment_witness :
    classify [("Security key", "Absent (free hotspot)")] = .openNetwork ∧
    classify [("Autenticación", "Abierta (portal)")] = .openNetwork :=
  ⟨(classify_substring_containment [("Security key", "Absent (free hotspot)")]
      (by decide)).1 "Security key" "Absent (free hotspot)" "Absent"
      (by decide) (by decide) (by decide) (by decide) (by decide),
   (classify_substring_containment [("Autenticación", "Abierta (portal)")]
      (by decide)).2 "Autenticación" "Abierta (portal)" "Abierta"
      (by decide) (by decide) (by decide) (by decide) (by decide)⟩

/-- C8: classification is locale-independent for every parsed mapping
whose labels and values use the Spanish variants of `NETSH_KEYS`: for any
combination of key-content presence, security-key value (the absent
variant or any other text) and authentication value (the open variant or
any other text), the Spanish-variant mapping classifies exactly as the
English-variant equivalent; the concrete conjunct instantiates the
two-field `Ausente`/`Abierta` vs `Absent`/`Open` mapping. -/
theorem classify_locale_equivalence :
    (∀ s : LocalizedFieldShape,
        classify (mkLocalizedEs s) = classify (mkLocalizedEn s)) ∧
    classify [("Clave de seguridad", "Ausente"), ("Autenticación", "Abierta")] =
      classify [("Security key", "Absent"), ("Authentication", "Open")] ∧
    classify [("Contenido de la clave", "clave123"), ("Clave de seguridad", "Ausente")] =
      classify [("Key Content", "clave123"), ("Security key", "Absent")] := by
  have hAbsAus : containsSub "Absent" "Ausente" = false := by decide
  have hAusAus : containsSub "Ausente" "Ausente" = true := by decide
  have hAbsAbs : containsSub "Absent" "Absent" = true := by decide
  have hAusAbs : containsSub "Ausente" "Absent" = false := by decide
  have hOpAbi : containsSub "Open" "Abierta" = false := by decide
  have hAbiAbi : containsSub "Abierta" "Abierta" = true := by decide
  have hOpOp : containsSub "Open" "Open" = true := by decide
  have hAbiOp : containsSub "Abierta" "Open" = false := by decide
  refine ⟨fun s => ?_, by decide, by decide⟩
  obtain ⟨kv, sv, av⟩ := s
  rcases sv with _ | _ | t <;> rcases av with _ | _ | u <;> cases kv <;>
    simp [mkLocalizedEs, mkLocalizedEn, mkFieldsAt, renderSecEn, renderSecEs,
      renderAuthEn, renderAuthEs, classify, securityAbsentSignal,
      openAuthSignal, dictFind, dictContains, NETSH_KEYS_key_content,
      NETSH_KEYS_security_key, NETSH_KEYS_security_key_absent,
      NETSH_KEYS_authentication, NETSH_KEYS_auth_open, List.findSome?_cons,
      List.find?, List.any_cons, List.any_nil,
      hAbsAus, hAusAus, hAbsAbs, hAusAbs, hOpAbi, hAbiAbi, hOpOp, hAbiOp]

/-!  ## Scanner lemmas -/

theorem credentialOf_name (loc : LocStrings) (p : String) (o : LookupOutcome) :
    (credentialOf loc p o).name = p := by
  cases o <;> rfl

theorem credentialOf_interface (loc : LocStrings) (p : String) (o : LookupOutcome) :
    (credentialOf loc p o).interface = "WiFi" := by
  cases o <;> rfl

theorem sortCreds_perm (l : List NetworkCredential) : (sortCreds l).Perm l :=
  List.perm_insertionSort credLE l

theorem sortCreds_sorted (l : List NetworkCredential) :
    (sortCreds l).Sorted credLE :=
  List.sorted_insertionSort credLE l

/-- Two permuted credential lists in which equal names force equal
credentials have the same sorted form: the result of the stable sort is
determined by the multiset of credentials. -/
theorem sortCreds_eq_of_perm {l₁ l₂ : List NetworkCredential}
    (hp : l₁.Perm l₂)
    (hinj : ∀ a, a ∈ l₁ → ∀ b, b ∈ l₂ → a.name = b.name → a = b) :
    sortCreds l₁ = sortCreds l₂ := by
  have hperm : (sortCreds l₁).Perm (sortCreds l₂) :=
    (sortCreds_perm l₁).trans (hp.trans (sortCreds_perm l₂).symm)
  haveI : IsAntisymm NetworkCredential
      (fun a b => credLE a b ∧ (b.name ≤ a.name → a = b)) :=
    ⟨fun _ _ h1 h2 => h1.2 h2.1⟩
  apply List.eq_of_perm_of_sorted
      (r := fun a b => credLE a b ∧ (b.name ≤ a.name → a = b)) hperm
  · apply List.Pairwise.imp_of_mem ?_ (sortCreds_sorted l₁)
    intro a b ha hb hab
    refine ⟨hab, fun hba => ?_⟩
    exact hinj a ((sortCreds_perm l₁).subset ha) b
      (hp.subset ((sortCreds_perm l₁).subset hb)) (le_antisymm hab hba)
  · apply List.Pairwise.imp_of_mem ?_ (sortCreds_sorted l₂)
    intro a b ha hb hab
    refine ⟨hab, fun hba => ?_⟩
    exact hinj a (hp.symm.subset ((sortCreds_perm l₂).subset ha)) b
      ((sortCreds_perm l₂).subset hb) (le_antisymm hab hba)

theorem scanService_map_names (loc : LocStrings)
    (lookup : String → LookupOutcome) (order : List String) :
    (order.map (fun p => credentialOf loc p (lookup p))).map
        (fun c => c.name) = order := by
  rw [List.map_map]
  have : (fun c : NetworkCredential => c.name) ∘
      (fun p => credentialOf loc p (lookup p)) = id := by
    funext p
    exact credentialOf_name loc p (lookup p)
  rw [this, List.map_id]

/-- C2: the scan result is independent of the completion order of the
per-profile lookups — any two completion orders give the same result —
and it is sorted by credential name ascending in the code-point
lexicographic string order. -/
theorem scan_order_independent_and_sorted (loc : LocStrings)
    (profiles : List String) (lookup : String → LookupOutcome)
    (o1 o2 : List String) (h1 : o1.Perm profiles) (h2 : o2.Perm profiles) :
    scanService loc (.ok profiles) lookup o1 =
      scanService loc (.ok profiles) lookup o2 ∧
    ∀ creds, scanService loc (.ok profiles) lookup o1 = .ok creds →
      creds.Sorted (fun a b => a.name ≤ b.name) := by
  constructor
  · simp only [scanService]
    by_cases hemp : profiles.isEmpty
    · rw [if_pos hemp, if_pos hemp]
    · rw [if_neg hemp, if_neg hemp]
      congr 1
      apply sortCreds_eq_of_perm
      · exact (h1.trans h2.symm).map _
      · intro a ha b hb hname
        obtain ⟨p, hp1, rfl⟩ := List.mem_map.mp ha
        obtain ⟨q, hq2, rfl⟩ := List.mem_map.mp hb
        have hpq : p = q := by
          rwa [credentialOf_name, credentialOf_name] at hname
        rw [hpq]
  · intro creds hc
    simp only [scanService] at hc
    by_cases hemp : profiles.isEmpty
    · rw [if_pos hemp] at hc
      injection hc with hc
      subst hc
      exact List.sorted_nil
    · rw [if_neg hemp] at hc
      injection hc with hc
      subst hc
      exact List.Pairwise.imp (fun h => h) (sortCreds_sorted _)

/-- Witness for C2: two different completion orders of the same three
profiles produce identical scan results. -/
theorem scan_order_independent_and_sorted_witness :
    (["C", "A", "B"] : List String).Perm ["B", "A", "C"] ∧
    scanService locDemo (.ok ["B", "A", "C"])
        (fun p => if p = "A" then .openNetworkExc else .result (some "k"))
        ["C", "A", "B"] =
      scanService locDemo (.ok ["B", "A", "C"])
        (fun p => if p = "A" then .openNetworkExc else .result (some "k"))
        ["A", "B", "C"] :=
  ⟨by decide,
   (scan_order_independent_and_sorted locDemo ["B", "A", "C"]
      (fun p => if p = "A" then .openNetworkExc else .result (some "k"))
      ["C", "A", "B"] ["A", "B", "C"] (by decide) (by decide)).1⟩

/-- C1: when the listing step returns distinct profile names, the scan
result holds exactly one credential per listed name — its name multiset
is a permutation of the listing, and each listed name occurs exactly
once — regardless of the per-profile lookup outcomes. -/
theorem scan_one_credential_per_listed_profile (loc : LocStrings)
    (profiles : List String) (lookup : String → LookupOutcome)
    (order : List String) (hnd : profiles.Nodup) (h : order.Perm profiles) :
    ∃ creds, scanService loc (.ok profiles) lookup order = .ok creds ∧
      (creds.map (fun c => c.name)).Perm profiles ∧
      ∀ p ∈ profiles, (creds.map (fun c => c.name)).count p = 1 := by
  by_cases hemp : profiles.isEmpty
  · have hnil : profiles = [] := by
      cases profiles with
      | nil => rfl
      | cons a l => cases hemp
    refine ⟨[], ?_, ?_, ?_⟩
    · simp only [scanService]; rw [if_pos hemp]
    · rw [hnil]; rfl
    · intro p hp; rw [hnil] at hp; cases hp
  · have hperm :
        ((sortCreds (order.map fun q => credentialOf loc q (lookup q))).map
            (fun c => c.name)).Perm profiles := by
      have hm := (sortCreds_perm (order.map fun q => credentialOf loc q (lookup q))).map
        (fun c => c.name)
      rw [scanService_map_names] at hm
      exact hm.trans h
    refine ⟨sortCreds (order.map fun q => credentialOf loc q (lookup q)), ?_, hperm, ?_⟩
    · simp only [scanService]; rw [if_neg hemp]
    · intro p hp
      rw [hperm.count_eq]
      exact List.count_eq_one_of_mem hnd hp

/-- Witness for C1: three distinct profiles, completion order reversed,
one lookup raising an unexpected exception — all three names appear
exactly once. -/
theorem scan_one_credential_per_listed_profile_witness :
    ∃ creds,
      scanService locDemo (.ok ["B", "A", "C"])
          (fun p => if p = "A" then .unexpectedExc else .result none)
          ["C", "A", "B"] = .ok creds ∧
      (creds.map (fun c => c.name)).Perm ["B", "A", "C"] ∧
      ∀ p ∈ ["B", "A", "C"], (creds.map (fun c => c.name)).count p = 1 :=
  scan_one_credential_per_listed_profile locDemo ["B", "A", "C"]
    (fun p => if p = "A" then .unexpectedExc else .result none)
    ["C", "A", "B"] (by decide) (by decide)

/-- C5: the scan fails with the wrapping scan-level error exactly when
the listing step fails; whenever the listing succeeds, every per-profile
lookup outcome — including an arbitrary unexpected exception — still
leaves the scan successful with a result entry for that profile. -/
theorem scan_error_iff_listing_error (loc : LocStrings)
    (listing : Except String (List String)) (lookup : String → LookupOutcome)
    (order : List String) :
    ((∃ e, scanService loc listing lookup order = .error e) ↔
      (∃ m, listing = .error m)) ∧
    (∀ profiles, listing = .ok profiles → order.Perm profiles →
      ∃ creds, scanService loc listing lookup order = .ok creds ∧
        ∀ p ∈ profiles, ∃ c ∈ creds, c.name = p) := by
  cases listing with
  | error m =>
      refine ⟨⟨fun _ => ⟨m, rfl⟩, fun _ => ⟨"Error al escanear redes: " ++ m, rfl⟩⟩,
        fun profiles hok => ?_⟩
      cases hok
  | ok profiles =>
      constructor
      · constructor
        · rintro ⟨e, he⟩
          simp only [scanService] at he
          by_cases hemp : profiles.isEmpty
          · rw [if_pos hemp] at he; cases he
          · rw [if_neg hemp] at he; cases he
        · rintro ⟨m, hm⟩
          cases hm
      · intro profiles2 hok horder
        injection hok with hok
        subst hok
        by_cases hemp : profiles.isEmpty
        · have hnil : profiles = [] := by
            cases profiles with
            | nil => rfl
            | cons a l => cases hemp
          refine ⟨[], by simp only [scanService]; rw [if_pos hemp], ?_⟩
          intro p hp
          rw [hnil] at hp
          cases hp
        · refine ⟨sortCreds (order.map fun q => credentialOf loc q (lookup q)),
            by simp only [scanService]; rw [if_neg hemp], ?_⟩
          intro p hp
          refine ⟨credentialOf loc p (lookup p), ?_, credentialOf_name loc p (lookup p)⟩
          apply (sortCreds_perm _).mem_iff.mpr
          exact List.mem_map.mpr ⟨p, horder.mem_iff.mpr hp, rfl⟩

/-- Witness for C5: a successful listing of one profile whose lookup
raises an arbitrary unexpected exception still yields a scan result with
an entry for that profile. -/
theorem scan_error_iff_listing_error_witness :
    ∃ creds,
      scanService locDemo (.ok ["A"]) (fun _ => .unexpectedExc) ["A"] = .ok creds ∧
      ∀ p ∈ ["A"], ∃ c ∈ creds, c.name = p :=
  (scan_error_iff_listing_error locDemo (.ok ["A"]) (fun _ => .unexpectedExc)
    ["A"]).2 ["A"] rfl (by decide)

/-- C9: every credential of every scan result carries the literal
interface string `"WiFi"`, in every outcome branch; this differs from the
provider's own `get_interface_name`, which returns `"Wi-Fi"` and is never
consulted for result rows. -/
theorem scan_interface_is_wifi_literal (loc : LocStrings)
    (listing : Except String (List String)) (lookup : String → LookupOutcome)
    (order : List String) (creds : List NetworkCredential)
    (h : scanService loc listing lookup order = .ok creds) :
    ∀ c ∈ creds, c.interface = "WiFi" ∧ c.interface ≠ get_interface_name := by
  intro c hc
  cases listing with
  | error m =>
      simp only [scanService] at h
      cases h
  | ok profiles =>
      simp only [scanService] at h
      by_cases hemp : profiles.isEmpty
      · rw [if_pos hemp] at h
        injection h with h
        subst h
        cases hc
      · rw [if_neg hemp] at h
        injection h with h
        subst h
        have hc2 : c ∈ order.map fun p => credentialOf loc p (lookup p) :=
          (sortCreds_perm _).subset hc
        obtain ⟨p, hp, rfl⟩ := List.mem_map.mp hc2
        refine ⟨credentialOf_interface loc p (lookup p), ?_⟩
        rw [credentialOf_interface]
        decide

/-- Witness for C9: a concrete scan of one open network produces a row
whose interface is `"WiFi"` and differs from `get_interface_name`. -/
theorem scan_interface_is_wifi_literal_witness :
    (NetworkCredential.mk "A" (some "Open network (no password)") "WiFi").interface
        = "WiFi" ∧
    (NetworkCredential.mk "A" (some "Open network (no password)") "WiFi").interface
        ≠ get_interface_name :=
  scan_interface_is_wifi_literal locDemo (.ok ["A"]) (fun _ => .openNetworkExc)
    ["A"] [⟨"A", some "Open network (no password)", "WiFi"⟩] (by rfl)
    ⟨"A", some "Open network (no password)", "WiFi"⟩ (by decide)

theorem get_password_err_returns_none (loc : LocStrings) (code : Nat)
    (out : String) (profile : String) :
    get_password loc (.err code out) profile = .result none := by
  simp [get_password]

/-- C4 (amended): for every profile whose per-profile query command exits
non-zero, the scan as a whole still succeeds, and the result contains a
row for that profile whose password field is `none` — the absent value,
not a localized placeholder string. -/
theorem scan_nonzero_exit_row_password_none (loc : LocStrings)
    (profiles order : List String) (cmdOf : String → CmdResult)
    (p : String) (code : Nat) (out : String)
    (h : order.Perm profiles) (hp : p ∈ profiles) (hc : cmdOf p = .err code out) :
    ∃ creds,
      scanService loc (.ok profiles)
          (fun q => get_password loc (cmdOf q) q) order = .ok creds ∧
      ∃ c ∈ creds, c.name = p ∧ c.password = none := by
  have hemp : ¬profiles.isEmpty = true := by
    cases profiles with
    | nil => cases hp
    | cons a l => intro habs; cases habs
  refine ⟨sortCreds (order.map fun q =>
      credentialOf loc q (get_password loc (cmdOf q) q)),
    by simp only [scanService]; rw [if_neg hemp], ?_⟩
  refine ⟨credentialOf loc p (get_password loc (cmdOf p) p), ?_,
    credentialOf_name loc p _, ?_⟩
  · apply (sortCreds_perm _).mem_iff.mpr
    exact List.mem_map.mpr ⟨p, h.mem_iff.mpr hp, rfl⟩
  · rw [hc, get_password_err_returns_none]
    rfl

/-- Witness for the amended C4: one profile whose query exits non-zero
with a not-found marker; the scan succeeds and its row has password
`none`. -/
theorem scan_nonzero_exit_row_password_none_witness :
    ∃ creds,
      scanService locDemo (.ok ["X"])
          (fun q =>
            get_password locDemo
              (.err 1 "The profile X is not found on the system.") q)
          ["X"] = .ok creds ∧
      ∃ c ∈ creds, c.name = "X" ∧ c.password = none :=
  scan_nonzero_exit_row_password_none locDemo ["X"] ["X"]
    (fun _ => .err 1 "The profile X is not found on the system.") "X" 1
    "The profile X is not found on the system." (by decide) (by decide) rfl

/-- Counterexample to C4 as stated: a per-profile query exiting non-zero
(both with and without a not-found marker) makes `get_password` return
`None`; the scan still succeeds, but the row's password field is `none` —
it is not set to any string, hence not to a localized placeholder status
string. -/
theorem scan_nonzero_exit_placeholder_counterexample :
    get_password locDemo
        (.err 1 "The profile X is not found on the system.") "X" =
      .result none ∧
    get_password locDemo (.err 1 "Access is denied.") "X" = .result none ∧
    scanService locDemo (.ok ["X"])
        (fun q =>
          get_password locDemo
            (.err 1 "The profile X is not found on the system.") q)
        ["X"] = .ok [⟨"X", none, "WiFi"⟩] ∧
    ¬ ∃ s : String, (NetworkCredential.mk "X" none "WiFi").password = some s := by
  refine ⟨by decide, by decide, by rfl, ?_⟩
  rintro ⟨s, hs⟩
  cases hs

/-- Witness for C6: concrete duplicate-label text where the lookup equals
the last-occurrence value, and a concrete matching line whose key and
value carry no surrounding whitespace. -/
theorem parse_netsh_output_last_occurrence_wins_witness :
    dictFind (parse_netsh_output "A : 1\nA : 2") "A" =
      lastVal ((splitlines "A : 1\nA : 2").filterMap parseKVLine) "A" ∧
    ((∀ c ∈ ("Key Content" : String).data.head?, isPySpace c = false) ∧
     (∀ c ∈ ("Key Content" : String).data.getLast?, isPySpace c = false) ∧
     (∀ c ∈ ("pw" : String).data.head?, isPySpace c = false) ∧
     (∀ c ∈ ("pw" : String).data.getLast?, isPySpace c = false)) :=
  ⟨parse_netsh_output_last_occurrence_wins.1 "A : 1\nA : 2" "A",
   parse_netsh_output_last_occurrence_wins.2.1 "  Key Content : pw  "
     "Key Content" "pw" (by decide)⟩
